import Mathlib

/-!
Verification of the crime-data aggregation program (`process_csv.py` plus the
`CrimeData` aggregate store it drives).

The embedding models Python dictionaries as association lists (first-match
lookup, in-place update of an existing key, append of a fresh key — the
semantics of CPython insertion-ordered dicts), Python integers as `Int`,
Python strings as `String`, and the fallible `datetime.date` constructor as
an `Except`-valued function.
-/

/-! ## Association lists (Python dict model) -/

/-- First-match lookup in an association list, modelling `d[k]` / `k in d`
on a Python dict. -/
def lookupA {α β : Type} [DecidableEq α] : List (α × β) → α → Option β
  | [], _ => none
  | (k', v) :: t, k => if k' = k then some v else lookupA t k

/-- Update the value at key `k` through `f` (starting from `dflt` when the key
is absent), modelling `d[k] = f(d.get(k, dflt))` on a Python dict: an existing
key keeps its position, a fresh key is appended at the end. -/
def updA {α β : Type} [DecidableEq α] : List (α × β) → α → β → (β → β) → List (α × β)
  | [], k, dflt, f => [(k, f dflt)]
  | (k', v) :: t, k, dflt, f =>
      if k' = k then (k, f v) :: t else (k', v) :: updA t k dflt f

/-- The keys of an association list. -/
def keysA {α β : Type} (l : List (α × β)) : List α := l.map Prod.fst

/-! ## Calendar positions -/

/-- The calendar position of a (year, month) pair, counted in months:
`(y, m)` with `m` in 1..12 sits at index `12 * y + (m - 1)`. -/
def monthIdx (ym : Int × Int) : Int := 12 * ym.1 + (ym.2 - 1)

/-- The month following `(y, m)` in calendar order: December of year `y` is
immediately followed by January of year `y + 1`. -/
def monthSucc (ym : Int × Int) : Int × Int :=
  if ym.2 = 12 then (ym.1 + 1, 1) else (ym.1, ym.2 + 1)

/-- `n` consecutive months starting at `ym`, in calendar order. -/
def monthRangeAux : Nat → Int × Int → List (Int × Int)
  | 0, _ => []
  | n + 1, ym => ym :: monthRangeAux n (monthSucc ym)

/-- All months of the inclusive calendar range `[s, e]`, ascending; empty when
`s` lies after `e`. -/
def monthRange (s e : Int × Int) : List (Int × Int) :=
  monthRangeAux (monthIdx e + 1 - monthIdx s).toNat s

/-- A month number is a valid calendar month. -/
def validMonth (m : Int) : Prop := 1 ≤ m ∧ m ≤ 12

instance (m : Int) : Decidable (validMonth m) := by unfold validMonth; infer_instance

/-! ## The `datetime.date` primitive -/

/-- A constructed `datetime.date` value. -/
structure PyDate where
  year : Int
  month : Int
  day : Int
deriving DecidableEq

/-- `datetime.date(year=y, month=m, day=1)`: the CPython constructor validates
the year against MINYEAR..MAXYEAR and the month against 1..12 and raises
`ValueError` otherwise; day 1 is valid in every month. -/
def mkDate1 (y m : Int) : Except String PyDate :=
  if y < 1 ∨ 9999 < y then Except.error "year is out of range"
  else if m < 1 ∨ 12 < m then Except.error "month must be in 1..12"
  else Except.ok ⟨y, m, 1⟩

/-- Comparison of `datetime.date` values: lexicographic on
(year, month, day). -/
def dateLE (a b : PyDate) : Prop :=
  a.year < b.year ∨ (a.year = b.year ∧
    (a.month < b.month ∨ (a.month = b.month ∧ a.day ≤ b.day)))

instance (a b : PyDate) : Decidable (dateLE a b) := by unfold dateLE; infer_instance

/-- `check_date_in_range` from `process_csv.py`: build the three first-of-month
dates (propagating any `ValueError` from the constructor) and test
`start <= date <= end`. -/
def check_date_in_range (start_year_month end_year_month date_year_month :
    Int × Int) : Except String Bool := do
  let start ← mkDate1 start_year_month.1 start_year_month.2
  let stop ← mkDate1 end_year_month.1 end_year_month.2
  let date ← mkDate1 date_year_month.1 date_year_month.2
  pure (decide (dateLE start date) && decide (dateLE date stop))

/-- The arguments `datetime.date` accepts with day 1: a year in
MINYEAR..MAXYEAR and a month in 1..12. -/
def validYM (ym : Int × Int) : Prop :=
  1 ≤ ym.1 ∧ ym.1 ≤ 9999 ∧ validMonth ym.2

instance (ym : Int × Int) : Decidable (validYM ym) := by
  unfold validYM; infer_instance

/-! ## The aggregate store -/

/-- month → occurrence count. -/
abbrev MonthMap := List (Int × Int)

/-- year → month map. -/
abbrev YearMap := List (Int × MonthMap)

/-- neighbourhood → year map. -/
abbrev NeighMap := List (String × YearMap)

/-- crime type → neighbourhood map. -/
abbrev CrimeMap := List (String × NeighMap)

/-- Modelled from the spec: the `CrimeData` class of `crime_data.py` (absent
from the sources; only `process_csv.py` is present). The aggregate store is a
four-level nested mapping crime type → neighbourhood → year → month →
occurrence count. -/
instance : DecidableEq YearMap := inferInstance

instance : DecidableEq NeighMap := inferInstance

instance : DecidableEq CrimeMap := inferInstance

structure CrimeData where
  crime_occurrences : CrimeMap

instance : DecidableEq CrimeData := fun a b =>
  if h : a.crime_occurrences = b.crime_occurrences then
    Decidable.isTrue (by cases a; cases b; simpa using h)
  else
    Decidable.isFalse (by intro hab; exact h (congrArg CrimeData.crime_occurrences hab))

/-- Modelled from the spec: `CrimeData()` — the store is created empty. -/
def emptyCrimeData : CrimeData := ⟨[]⟩

/-- Modelled from the spec: `CrimeData.increment_crime` adds `amount` to the
count at the four-level key path, creating intermediate mapping levels on
demand (a fresh leaf starts from 0, so it is created holding `amount`). -/
def CrimeData.increment_crime (d : CrimeData) (c n : String) (y m : Int)
    (amount : Int) : CrimeData :=
  ⟨updA d.crime_occurrences c [] (fun ns =>
    updA ns n [] (fun ys =>
      updA ys y [] (fun ms =>
        updA ms m 0 (fun v => v + amount))))⟩

/-- Insert an explicit zero for month `m` when it is absent; an existing entry
is left untouched. -/
def insertMonthZero (ms : MonthMap) (m : Int) : MonthMap :=
  if (lookupA ms m).isSome then ms else ms ++ [(m, 0)]

/-- Ensure the single month `ym` has an entry in the year map, creating the
year level on demand. -/
def fillYM (ys : YearMap) (ym : Int × Int) : YearMap :=
  updA ys ym.1 [] (fun ms => insertMonthZero ms ym.2)

/-- Ensure every month of `rng` has an entry, in calendar order. -/
def fillSeries (ys : YearMap) (rng : List (Int × Int)) : YearMap :=
  rng.foldl fillYM ys

/-- Modelled from the spec: `CrimeData.fill_gaps` — for every
(crime type, neighbourhood) pair already present in the store, ensure every
(year, month) of the inclusive range has an entry, inserting zero-valued
entries for the missing months, iterating the range in calendar order with
December rolling over to January; pairs not already present are left absent. -/
def CrimeData.fill_gaps (d : CrimeData) (s e : Int × Int) : CrimeData :=
  ⟨d.crime_occurrences.map (fun cp =>
    (cp.1, cp.2.map (fun np => (np.1, fillSeries np.2 (monthRange s e)))))⟩

/-- The year map of a (crime type, neighbourhood) pair, when the pair is
present. -/
def CrimeData.getPair (d : CrimeData) (c n : String) : Option YearMap :=
  (lookupA d.crime_occurrences c).bind (fun ns => lookupA ns n)

/-- Leaf lookup inside a year map. -/
def lookupYM (ys : YearMap) (y m : Int) : Option Int :=
  (lookupA ys y).bind (fun ms => lookupA ms m)

/-- The stored occurrence count at a four-level key path, when present. -/
def CrimeData.getCount (d : CrimeData) (c n : String) (y m : Int) : Option Int :=
  (d.getPair c n).bind (fun ys => lookupYM ys y m)

/-! ## Key uniqueness -/

/-- The keys of an association list are pairwise distinct (always true of a
Python dict). -/
def NodupA {α β : Type} (l : List (α × β)) : Prop := (keysA l).Nodup

/-- Key uniqueness at the year and month levels. -/
def NodupYears (ys : YearMap) : Prop := NodupA ys ∧ ∀ yp ∈ ys, NodupA yp.2

/-- Key uniqueness at the neighbourhood level and below. -/
def NodupNeigh (ns : NeighMap) : Prop := NodupA ns ∧ ∀ np ∈ ns, NodupYears np.2

/-- Key uniqueness at every level of the store: no duplicate crime types,
neighbourhoods, years or months. -/
def NodupStore (d : CrimeData) : Prop :=
  NodupA d.crime_occurrences ∧ ∀ cp ∈ d.crime_occurrences, NodupNeigh cp.2

/-! ## Non-negativity -/

/-- All counts of a month map are non-negative. -/
def monthNonneg (ms : MonthMap) : Prop := ∀ mp ∈ ms, 0 ≤ mp.2

/-- All counts under a year map are non-negative. -/
def yearNonneg (ys : YearMap) : Prop := ∀ yp ∈ ys, monthNonneg yp.2

/-- All counts under a neighbourhood map are non-negative. -/
def neighNonneg (ns : NeighMap) : Prop := ∀ np ∈ ns, yearNonneg np.2

/-- Every occurrence count stored at any leaf of the store is non-negative. -/
def storeNonneg (d : CrimeData) : Prop :=
  ∀ cp ∈ d.crime_occurrences, neighNonneg cp.2

/-! ## Store lifecycle -/

/-- The stores reachable by the documented lifecycle: created empty, mutated
by arbitrary `increment_crime` calls (any integer amount, as in processed
mode) and by `fill_gaps` passes. -/
inductive ReachCD : CrimeData → Prop where
  | empty : ReachCD emptyCrimeData
  | inc (d : CrimeData) (c n : String) (y m a : Int) :
      ReachCD d → ReachCD (d.increment_crime c n y m a)
  | fill (d : CrimeData) (s e : Int × Int) :
      ReachCD d → ReachCD (d.fill_gaps s e)

/-- The stores reachable when every increment amount is non-negative. -/
inductive ReachCDNN : CrimeData → Prop where
  | empty : ReachCDNN emptyCrimeData
  | inc (d : CrimeData) (c n : String) (y m a : Int) :
      0 ≤ a → ReachCDNN d → ReachCDNN (d.increment_crime c n y m a)
  | fill (d : CrimeData) (s e : Int × Int) :
      ReachCDNN d → ReachCDNN (d.fill_gaps s e)

instance (d : CrimeData) : Decidable (storeNonneg d) := by
  unfold storeNonneg neighNonneg yearNonneg monthNonneg
  infer_instance

/-! ## The ingestion pipeline -/

/-- A cell of an input row: the datasets hold strings and integers. -/
inductive Cell where
  | str (s : String)
  | int (n : Int)
deriving DecidableEq

/-- An input row, addressable by column position. -/
abbrev Row := List Cell

/-- `row[col]` for a row of the dataframe (the datasets' column positions are
always in bounds; out-of-range access is given a harmless default). -/
def getCol (r : Row) (i : Nat) : Cell := r.getD i (Cell.str "")

/-- The string carried by a cell (the datasets' crime-type and neighbourhood
columns hold strings). -/
def Cell.asStr : Cell → String
  | .str s => s
  | .int _ => ""

/-- The integer carried by a cell (the datasets' year, month and count
columns hold integers). -/
def Cell.asInt : Cell → Int
  | .str _ => 0
  | .int n => n

/-- `build_crime_data_class` from `process_csv.py`, with the already-parsed
rows standing in for the dataframe: in raw mode each row is tested against
the caller-supplied range (a `ValueError` from the date primitive propagates)
and in-range rows increment the store by 1, then `fill_gaps` runs once; in
processed mode every row increments the store by the value of its
occurrence-count column and no gap-fill runs. -/
def build_crime_data_class (rows : List Row) (col_num_crime_type : Nat)
    (col_num_year : Nat) (col_num_month : Nat) (col_num_neighbourhood : Nat)
    (reading_processed_data : Bool) (col_num_occurrences : Nat)
    (start_year_month end_year_month : Int × Int) :
    Except String CrimeData :=
  if ¬ reading_processed_data then do
    let d ← rows.foldlM (fun d row => do
      let inR ← check_date_in_range start_year_month end_year_month
        ((getCol row col_num_year).asInt, (getCol row col_num_month).asInt)
      pure (if inR then
        d.increment_crime (getCol row col_num_crime_type).asStr
          (getCol row col_num_neighbourhood).asStr
          (getCol row col_num_year).asInt (getCol row col_num_month).asInt 1
      else d)) emptyCrimeData
    pure (d.fill_gaps start_year_month end_year_month)
  else
    pure (rows.foldl (fun d row =>
      d.increment_crime (getCol row col_num_crime_type).asStr
        (getCol row col_num_neighbourhood).asStr
        (getCol row col_num_year).asInt (getCol row col_num_month).asInt
        (getCol row col_num_occurrences).asInt) emptyCrimeData)

/-! ## The export side (`create_csv`) -/

/-- A Python runtime value as the export loop sees it: a string, an integer,
or something of any other type. -/
inductive PyVal where
  | str (s : String)
  | int (n : Int)
  | other (tag : Nat)
deriving DecidableEq

/-- `isinstance(v, str)`. -/
def isStrV : PyVal → Bool
  | .str _ => true
  | _ => false

/-- `isinstance(v, int)`. -/
def isIntV : PyVal → Bool
  | .int _ => true
  | _ => false

/-- The string carried by a string value. -/
def strOf : PyVal → String
  | .str s => s
  | _ => ""

/-- The integer carried by an integer value. -/
def intOf : PyVal → Int
  | .int n => n
  | _ => 0

/-- The nested structure `create_csv` iterates: nothing constrains the
runtime types of the keys or of the leaf counts, so entries may deviate from
the expected {string, string, integer, integer, integer} shape. -/
structure DynCrimeData where
  crime_occurrences :
    List (PyVal × List (PyVal × List (PyVal × List (PyVal × PyVal))))

/-- One flat exported record. -/
structure ExportRecord where
  crime_type : String
  neighbourhood : String
  year : Int
  month : Int
  count : Int
deriving DecidableEq

/-- The `formatted_dict` of `create_csv`: five parallel column lists. -/
structure FormattedDict where
  crime_type : List String
  neighbourhood : List String
  year : List Int
  month : List Int
  count : List Int
deriving DecidableEq

/-- `formatted_dict` before any append: five empty lists. -/
def emptyFormattedDict : FormattedDict := ⟨[], [], [], [], []⟩

/-- One simultaneous append to the five column lists. -/
def appendRecord (fd : FormattedDict) (c n : String) (y m k : Int) :
    FormattedDict :=
  ⟨fd.crime_type ++ [c], fd.neighbourhood ++ [n], fd.year ++ [y],
   fd.month ++ [m], fd.count ++ [k]⟩

/-- `create_csv` from `process_csv.py` (up to the `pandas` serialization):
iterate the four nested levels in order and append a row to `formatted_dict`
exactly when the five `isinstance` checks pass. -/
def create_csv (d : DynCrimeData) : FormattedDict :=
  d.crime_occurrences.foldl (fun fd cp =>
    cp.2.foldl (fun fd np =>
      np.2.foldl (fun fd yp =>
        yp.2.foldl (fun fd mp =>
          if isStrV cp.1 && isStrV np.1 && isIntV yp.1 && isIntV mp.1 &&
              isIntV mp.2 then
            appendRecord fd (strOf cp.1) (strOf np.1) (intOf yp.1)
              (intOf mp.1) (intOf mp.2)
          else fd) fd) fd) fd) emptyFormattedDict

/-- From the spec's words: a leaf conforming to the expected
{string, string, integer, integer, integer} shape yields exactly one flat
record; any other leaf yields none. -/
def conformRecord (c n y m k : PyVal) : Option ExportRecord :=
  match c, n, y, m, k with
  | .str cs, .str ns, .int yi, .int mi, .int ki => some ⟨cs, ns, yi, mi, ki⟩
  | _, _, _, _, _ => none

/-- From the spec's words: the export of an aggregate is the list of flat
records of its conforming leaves, in iteration order, the non-conforming
leaves being omitted. -/
def spec_export_records (d : DynCrimeData) : List ExportRecord :=
  d.crime_occurrences.flatMap (fun cp =>
    cp.2.flatMap (fun np =>
      np.2.flatMap (fun yp =>
        yp.2.filterMap (fun mp => conformRecord cp.1 np.1 yp.1 mp.1 mp.2))))

/-- Transpose a record list into the five parallel column lists. -/
def recordsToDict (rs : List ExportRecord) : FormattedDict :=
  ⟨rs.map (fun r => r.crime_type), rs.map (fun r => r.neighbourhood),
   rs.map (fun r => r.year), rs.map (fun r => r.month),
   rs.map (fun r => r.count)⟩

/-- Append a record list's columns to a `FormattedDict`. -/
def fdApp (fd : FormattedDict) (rs : List ExportRecord) : FormattedDict :=
  ⟨fd.crime_type ++ rs.map (fun r => r.crime_type),
   fd.neighbourhood ++ rs.map (fun r => r.neighbourhood),
   fd.year ++ rs.map (fun r => r.year),
   fd.month ++ rs.map (fun r => r.month),
   fd.count ++ rs.map (fun r => r.count)⟩

/-- From the spec's words: the candidate's first-of-month calendar position
lies between the two bounds' calendar positions, inclusive on both ends. -/
def ymInRange (s e ym : Int × Int) : Prop :=
  monthIdx s ≤ monthIdx ym ∧ monthIdx ym ≤ monthIdx e

instance (s e ym : Int × Int) : Decidable (ymInRange s e ym) := by
  unfold ymInRange
  infer_instance

/-- The three end-to-end example rows of the raw Vancouver schema:
crime type in column 0, year in 1, month in 2, neighbourhood in 3. -/
def exRows : List Row :=
  [[Cell.str "Theft", Cell.int 2003, Cell.int 1, Cell.str "X"],
   [Cell.str "Theft", Cell.int 2003, Cell.int 1, Cell.str "X"],
   [Cell.str "Theft", Cell.int 2003, Cell.int 3, Cell.str "X"]]

/-- A single row of the processed Vancouver schema shape, with an
occurrence count of 2 in column 4. -/
def exRow2 : List Row :=
  [[Cell.str "Theft", Cell.int 2003, Cell.int 1, Cell.str "X", Cell.int 2]]

/-- An example store: two thefts recorded in X in January 2003. -/
def exStore : CrimeData :=
  (emptyCrimeData.increment_crime "Theft" "X" 2003 1 1).increment_crime
    "Theft" "X" 2003 1 1

instance (d : CrimeData) : Decidable (NodupStore d) := by
  unfold NodupStore NodupNeigh NodupYears NodupA keysA
  infer_instance

/-! ## Basic lemmas about the date model -/

theorem mkDate1_ok {y m : Int} (hy : 1 ≤ y) (hy' : y ≤ 9999)
    (hm : validMonth m) : mkDate1 y m = Except.ok ⟨y, m, 1⟩ := by
  obtain ⟨h1, h2⟩ := hm
  unfold mkDate1
  rw [if_neg (by omega), if_neg (by omega)]

theorem mkDate1_error_of_badMonth {y m : Int} (hm : ¬ validMonth m) :
    ∃ msg, mkDate1 y m = Except.error msg := by
  unfold mkDate1
  by_cases hy : y < 1 ∨ 9999 < y
  · exact ⟨"year is out of range", by rw [if_pos hy]⟩
  · refine ⟨"month must be in 1..12", ?_⟩
    rw [if_neg hy, if_pos ?_]
    unfold validMonth at hm
    omega

/-- For two first-of-month dates with valid months, the lexicographic date
order agrees with the order of calendar positions. -/
theorem dateLE_iff_monthIdx {y1 m1 y2 m2 : Int}
    (h1 : validMonth m1) (h2 : validMonth m2) :
    dateLE ⟨y1, m1, 1⟩ ⟨y2, m2, 1⟩ ↔ monthIdx (y1, m1) ≤ monthIdx (y2, m2) := by
  obtain ⟨a1, b1⟩ := h1
  obtain ⟨a2, b2⟩ := h2
  unfold dateLE monthIdx
  simp only
  omega

theorem check_date_in_range_ok {s e c : Int × Int}
    (hs : validYM s) (he : validYM e) (hc : validYM c) :
    check_date_in_range s e c =
      Except.ok (decide (monthIdx s ≤ monthIdx c) &&
                 decide (monthIdx c ≤ monthIdx e)) := by
  obtain ⟨hs1, hs2, hs3⟩ := hs
  obtain ⟨he1, he2, he3⟩ := he
  obtain ⟨hc1, hc2, hc3⟩ := hc
  unfold check_date_in_range
  rw [mkDate1_ok hs1 hs2 hs3, mkDate1_ok he1 he2 he3, mkDate1_ok hc1 hc2 hc3]
  simp only [bind, Except.bind, pure, Except.pure]
  congr 1
  rw [decide_eq_decide.2 (dateLE_iff_monthIdx hs3 hc3),
      decide_eq_decide.2 (dateLE_iff_monthIdx hc3 he3)]

/-! ## Association-list lemmas -/

theorem lookupA_updA {α β : Type} [DecidableEq α]
    (l : List (α × β)) (k : α) (dflt : β) (f : β → β) (k' : α) :
    lookupA (updA l k dflt f) k' =
      if k' = k then some (f ((lookupA l k).getD dflt)) else lookupA l k' := by
  induction l with
  | nil =>
    by_cases h : k' = k
    · subst h; simp [updA, lookupA]
    · simp [updA, lookupA, h, Ne.symm h]
  | cons p t ih =>
    obtain ⟨a, v⟩ := p
    by_cases hak : a = k
    · subst hak
      by_cases h : k' = a
      · subst h; simp [updA, lookupA]
      · simp [updA, lookupA, h, Ne.symm h]
    · by_cases hak' : a = k'
      · subst hak'
        simp [updA, lookupA, hak, Ne.symm hak]
      · simp [updA, lookupA, hak, hak', ih]

theorem mem_updA {α β : Type} [DecidableEq α]
    {l : List (α × β)} {k : α} {dflt : β} {f : β → β} {p : α × β}
    (hp : p ∈ updA l k dflt f) :
    p ∈ l ∨ p = (k, f ((lookupA l k).getD dflt)) := by
  induction l with
  | nil =>
    right
    simp [updA] at hp
    simpa [lookupA] using hp
  | cons q t ih =>
    obtain ⟨a, v⟩ := q
    by_cases hak : a = k
    · subst hak
      simp only [updA, if_pos rfl] at hp
      rcases List.mem_cons.1 hp with h | h
      · right; simpa [lookupA] using h
      · left; exact List.mem_cons_of_mem _ h
    · simp only [updA, if_neg hak] at hp
      rcases List.mem_cons.1 hp with h | h
      · left; exact h ▸ List.mem_cons_self _ _
      · rcases ih h with h' | h'
        · left; exact List.mem_cons_of_mem _ h'
        · right; simpa [lookupA, hak] using h'

theorem keysA_updA {α β : Type} [DecidableEq α]
    (l : List (α × β)) (k : α) (dflt : β) (f : β → β) :
    keysA (updA l k dflt f) =
      if (lookupA l k).isSome then keysA l else keysA l ++ [k] := by
  induction l with
  | nil => simp [updA, keysA, lookupA]
  | cons p t ih =>
    obtain ⟨a, v⟩ := p
    by_cases hak : a = k
    · subst hak
      simp [updA, keysA, lookupA]
    · have h1 : updA ((a, v) :: t) k dflt f = (a, v) :: updA t k dflt f := by
        simp [updA, hak]
      have h2 : lookupA ((a, v) :: t) k = lookupA t k := by
        simp [lookupA, hak]
      rw [h1, h2]
      simp only [keysA, List.map_cons] at ih ⊢
      rw [ih]
      by_cases h : (lookupA t k).isSome <;> simp [h]

theorem lookupA_append {α β : Type} [DecidableEq α]
    (l1 l2 : List (α × β)) (k : α) :
    lookupA (l1 ++ l2) k =
      if (lookupA l1 k).isSome then lookupA l1 k else lookupA l2 k := by
  induction l1 with
  | nil => simp [lookupA]
  | cons p t ih =>
    obtain ⟨a, v⟩ := p
    by_cases h : a = k <;> simp [lookupA, h, ih]

theorem lookupA_mem {α β : Type} [DecidableEq α]
    {l : List (α × β)} {k : α} {v : β} (h : lookupA l k = some v) : (k, v) ∈ l := by
  induction l with
  | nil => simp [lookupA] at h
  | cons p t ih =>
    obtain ⟨a, w⟩ := p
    by_cases hak : a = k
    · subst hak
      simp [lookupA] at h
      simp [h]
    · simp [lookupA, hak] at h
      exact List.mem_cons_of_mem _ (ih h)

theorem lookupA_eq_none_iff {α β : Type} [DecidableEq α]
    (l : List (α × β)) (k : α) : lookupA l k = none ↔ k ∉ keysA l := by
  induction l with
  | nil => simp [lookupA, keysA]
  | cons p t ih =>
    obtain ⟨a, v⟩ := p
    by_cases hak : a = k
    · subst hak
      simp [lookupA, keysA]
    · simp [lookupA, hak, keysA, Ne.symm hak] at ih ⊢
      exact ih

theorem bind_getD {β γ : Type} (o : Option β) (f : β → Option γ) (dflt : β)
    (h : f dflt = none) : o.bind f = f (o.getD dflt) := by
  cases o <;> simp [h]

/-! ## Calendar-range lemmas -/

theorem monthIdx_monthSucc {ym : Int × Int} (h : validMonth ym.2) :
    monthIdx (monthSucc ym) = monthIdx ym + 1 := by
  obtain ⟨h1, h2⟩ := h
  unfold monthIdx monthSucc
  by_cases h12 : ym.2 = 12 <;> simp [h12] <;> omega

theorem validMonth_monthSucc {ym : Int × Int} (h : validMonth ym.2) :
    validMonth (monthSucc ym).2 := by
  obtain ⟨h1, h2⟩ := h
  unfold monthSucc validMonth
  by_cases h12 : ym.2 = 12
  · simp [h12]
  · simp [h12]
    omega

theorem monthIdx_inj {p q : Int × Int} (hp : validMonth p.2) (hq : validMonth q.2)
    (h : monthIdx p = monthIdx q) : p = q := by
  obtain ⟨p1, p2⟩ := p
  obtain ⟨q1, q2⟩ := q
  obtain ⟨a1, a2⟩ := hp
  obtain ⟨b1, b2⟩ := hq
  unfold monthIdx at h
  simp only at h a1 a2 b1 b2 ⊢
  have h1 : p1 = q1 := by omega
  have h2 : p2 = q2 := by omega
  rw [h1, h2]

theorem mem_monthRangeAux (n : Nat) (s : Int × Int) (hs : validMonth s.2)
    (p : Int × Int) :
    p ∈ monthRangeAux n s ↔
      validMonth p.2 ∧ monthIdx s ≤ monthIdx p ∧ monthIdx p < monthIdx s + n := by
  induction n generalizing s with
  | zero => simp [monthRangeAux]
  | succ k ih =>
    rw [monthRangeAux]
    constructor
    · intro hp
      rcases List.mem_cons.1 hp with h | h
      · subst h
        exact ⟨hs, le_refl _, by omega⟩
      · have := (ih (monthSucc s) (validMonth_monthSucc hs) ).1 h
        rw [monthIdx_monthSucc hs] at this
        exact ⟨this.1, by omega, by omega⟩
    · rintro ⟨hv, hle, hlt⟩
      by_cases heq : monthIdx p = monthIdx s
      · exact List.mem_cons.2 (Or.inl (monthIdx_inj hv hs heq))
      · refine List.mem_cons.2 (Or.inr ?_)
        rw [ih (monthSucc s) (validMonth_monthSucc hs), monthIdx_monthSucc hs]
        exact ⟨hv, by omega, by omega⟩

theorem mem_monthRange (s e : Int × Int) (hs : validMonth s.2) (p : Int × Int) :
    p ∈ monthRange s e ↔
      validMonth p.2 ∧ monthIdx s ≤ monthIdx p ∧ monthIdx p ≤ monthIdx e := by
  rw [monthRange, mem_monthRangeAux _ _ hs]
  constructor
  · rintro ⟨h1, h2, h3⟩
    refine ⟨h1, h2, ?_⟩
    omega
  · rintro ⟨h1, h2, h3⟩
    refine ⟨h1, h2, ?_⟩
    omega

/-! ## Lookup after increment -/

theorem lookupYM_incYM (ys : YearMap) (y m a : Int) (y' m' : Int) :
    lookupYM (updA ys y [] (fun ms => updA ms m 0 (fun v => v + a))) y' m' =
      if y' = y ∧ m' = m then some ((lookupYM ys y m).getD 0 + a)
      else lookupYM ys y' m' := by
  unfold lookupYM
  rw [lookupA_updA]
  by_cases hy : y' = y
  · rw [if_pos hy]
    simp only [Option.some_bind]
    rw [lookupA_updA]
    by_cases hm : m' = m
    · rw [if_pos hm, if_pos ⟨hy, hm⟩, bind_getD _ _ [] rfl]
    · rw [if_neg hm, if_neg (fun h => hm h.2), hy, bind_getD _ _ [] rfl]
  · rw [if_neg hy, if_neg (fun h => hy h.1)]

theorem getPair_increment (d : CrimeData) (c n : String) (y m a : Int)
    (c' n' : String) :
    (d.increment_crime c n y m a).getPair c' n' =
      if c' = c ∧ n' = n
      then some (updA ((d.getPair c n).getD []) y []
        (fun ms => updA ms m 0 (fun v => v + a)))
      else d.getPair c' n' := by
  unfold CrimeData.increment_crime CrimeData.getPair
  simp only
  rw [lookupA_updA]
  by_cases hc : c' = c
  · rw [if_pos hc]
    simp only [Option.some_bind]
    rw [lookupA_updA]
    by_cases hn : n' = n
    · rw [if_pos hn, if_pos ⟨hc, hn⟩, bind_getD _ _ [] rfl]
    · rw [if_neg hn, if_neg (fun h => hn h.2), hc, bind_getD _ _ [] rfl]
  · rw [if_neg hc, if_neg (fun h => hc h.1)]

theorem getCount_increment (d : CrimeData) (c n : String) (y m a : Int)
    (c' n' : String) (y' m' : Int) :
    (d.increment_crime c n y m a).getCount c' n' y' m' =
      if c' = c ∧ n' = n ∧ y' = y ∧ m' = m
      then some ((d.getCount c n y m).getD 0 + a)
      else d.getCount c' n' y' m' := by
  unfold CrimeData.getCount
  rw [getPair_increment]
  by_cases hcn : c' = c ∧ n' = n
  · rw [if_pos hcn]
    simp only [Option.some_bind]
    rw [lookupYM_incYM]
    by_cases hym : y' = y ∧ m' = m
    · rw [if_pos hym, if_pos ⟨hcn.1, hcn.2, hym.1, hym.2⟩, bind_getD _ _ [] rfl]
    · rw [if_neg hym, if_neg (by tauto), hcn.1, hcn.2, bind_getD _ _ [] rfl]
  · rw [if_neg hcn, if_neg (by tauto)]

/-! ## Lookup after gap-filling -/

theorem lookupYM_fillYM (ys : YearMap) (q : Int × Int) (y' m' : Int) :
    lookupYM (fillYM ys q) y' m' =
      if y' = q.1 ∧ m' = q.2 then some ((lookupYM ys q.1 q.2).getD 0)
      else lookupYM ys y' m' := by
  unfold fillYM lookupYM
  rw [lookupA_updA]
  by_cases hy : y' = q.1
  · rw [if_pos hy]
    simp only [Option.some_bind]
    have hys : ((lookupA ys q.1).bind fun ms => lookupA ms q.2) =
        lookupA ((lookupA ys q.1).getD []) q.2 := bind_getD _ _ [] rfl
    rw [hys]
    unfold insertMonthZero
    by_cases hpres : (lookupA ((lookupA ys q.1).getD []) q.2).isSome
    · rw [if_pos hpres]
      by_cases hm : m' = q.2
      · rw [if_pos ⟨hy, hm⟩, hm]
        obtain ⟨v, hv⟩ := Option.isSome_iff_exists.1 hpres
        rw [hv]
        rfl
      · rw [if_neg (fun h => hm h.2), hy, bind_getD _ _ [] rfl]
    · have hnone : lookupA ((lookupA ys q.1).getD []) q.2 = none :=
        Option.not_isSome_iff_eq_none.1 hpres
      rw [if_neg hpres, lookupA_append]
      by_cases hm : m' = q.2
      · have hcond : ¬ ((lookupA ((lookupA ys q.1).getD []) q.2).isSome = true) := by
          rw [hnone]
          simp
        rw [hm, if_neg hcond, if_pos ⟨hy, rfl⟩, hnone]
        simp [lookupA]
      · rw [if_neg (fun h : y' = q.1 ∧ m' = q.2 => hm h.2), hy,
            bind_getD _ _ [] rfl]
        cases hq2 : lookupA ((lookupA ys q.1).getD []) m' with
        | none => simp [hq2, lookupA, Ne.symm hm]
        | some v => simp [hq2]
  · rw [if_neg hy, if_neg (fun h => hy h.1)]

theorem lookupYM_fillSeries (ys : YearMap) (rng : List (Int × Int))
    (y' m' : Int) :
    lookupYM (fillSeries ys rng) y' m' =
      if (y', m') ∈ rng then some ((lookupYM ys y' m').getD 0)
      else lookupYM ys y' m' := by
  induction rng generalizing ys with
  | nil => simp [fillSeries]
  | cons q t ih =>
    rw [fillSeries, List.foldl_cons]
    rw [show List.foldl fillYM (fillYM ys q) t = fillSeries (fillYM ys q) t from rfl]
    rw [ih, lookupYM_fillYM]
    by_cases hq : (y', m') = q
    · have h1 : y' = q.1 ∧ m' = q.2 := by
        rw [← hq]
        exact ⟨rfl, rfl⟩
      by_cases ht : (y', m') ∈ t
      · rw [if_pos ht, if_pos (List.mem_cons.2 (Or.inl hq)), if_pos h1,
            h1.1, h1.2]
        simp
      · rw [if_neg ht, if_pos h1, if_pos (List.mem_cons.2 (Or.inl hq)), h1.1, h1.2]
    · have h1 : ¬ (y' = q.1 ∧ m' = q.2) := by
        intro h
        exact hq (Prod.ext h.1 h.2)
      rw [if_neg h1]
      by_cases ht : (y', m') ∈ t
      · rw [if_pos ht, if_pos (List.mem_cons.2 (Or.inr ht))]
      · rw [if_neg ht, if_neg (by simp [hq, ht])]

theorem lookupA_mapVal {α β : Type} [DecidableEq α]
    (l : List (α × β)) (F : β → β) (k : α) :
    lookupA (l.map (fun p => (p.1, F p.2))) k = (lookupA l k).map F := by
  induction l with
  | nil => simp [lookupA]
  | cons p t ih =>
    obtain ⟨a, v⟩ := p
    by_cases h : a = k <;> simp [lookupA, h, ih]

theorem getPair_fill_gaps (d : CrimeData) (s e : Int × Int) (c n : String) :
    (d.fill_gaps s e).getPair c n =
      (d.getPair c n).map (fun ys => fillSeries ys (monthRange s e)) := by
  unfold CrimeData.fill_gaps CrimeData.getPair
  simp only
  rw [lookupA_mapVal _ (fun ns : NeighMap =>
    ns.map (fun np => (np.1, fillSeries np.2 (monthRange s e)))) c]
  cases hl : lookupA d.crime_occurrences c
  · rfl
  · simp only [Option.map_some', Option.some_bind]
    rw [lookupA_mapVal _ (fun ys : YearMap => fillSeries ys (monthRange s e)) n]

theorem getCount_fill_gaps (d : CrimeData) (s e : Int × Int) (c n : String)
    (y m : Int) :
    (d.fill_gaps s e).getCount c n y m =
      match d.getPair c n with
      | none => none
      | some ys =>
        if (y, m) ∈ monthRange s e then some ((lookupYM ys y m).getD 0)
        else lookupYM ys y m := by
  unfold CrimeData.getCount
  rw [getPair_fill_gaps]
  cases hl : d.getPair c n
  · rfl
  · simp [lookupYM_fillSeries]

/-! ## Idempotence machinery -/

theorem updA_id {α β : Type} [DecidableEq α]
    {l : List (α × β)} {k : α} {dflt : β} {f : β → β} {v : β}
    (hv : lookupA l k = some v) (hf : f v = v) : updA l k dflt f = l := by
  induction l with
  | nil => simp [lookupA] at hv
  | cons p t ih =>
    obtain ⟨a, w⟩ := p
    by_cases hak : a = k
    · simp only [lookupA, if_pos hak] at hv
      obtain rfl : w = v := Option.some_injective _ hv
      simp only [updA, if_pos hak, hf]
      rw [hak]
    · simp only [lookupA, if_neg hak] at hv
      simp only [updA, if_neg hak]
      rw [ih hv]

theorem fillYM_id {ys : YearMap} {q : Int × Int}
    (h : (lookupYM ys q.1 q.2).isSome) : fillYM ys q = ys := by
  obtain ⟨v, hv⟩ := Option.isSome_iff_exists.1 h
  unfold lookupYM at hv
  cases hy : lookupA ys q.1 with
  | none => rw [hy] at hv; simp at hv
  | some ms =>
    rw [hy] at hv
    simp only [Option.some_bind] at hv
    unfold fillYM
    refine updA_id hy ?_
    unfold insertMonthZero
    rw [if_pos (by rw [hv]; rfl)]

theorem lookupYM_fillYM_isSome (ys : YearMap) (q p : Int × Int)
    (h : (lookupYM ys p.1 p.2).isSome) :
    (lookupYM (fillYM ys q) p.1 p.2).isSome := by
  rw [lookupYM_fillYM]
  by_cases hpq : p.1 = q.1 ∧ p.2 = q.2
  · rw [if_pos hpq]; rfl
  · rw [if_neg hpq]; exact h

theorem lookupYM_fillSeries_isSome (ys : YearMap) (rng : List (Int × Int))
    (p : Int × Int) (h : (lookupYM ys p.1 p.2).isSome) :
    (lookupYM (fillSeries ys rng) p.1 p.2).isSome := by
  rw [lookupYM_fillSeries]
  by_cases hp : (p.1, p.2) ∈ rng
  · rw [if_pos hp]; rfl
  · rw [if_neg hp]; exact h

theorem fillSeries_filled (ys : YearMap) (rng : List (Int × Int))
    (p : Int × Int) (hp : p ∈ rng) :
    (lookupYM (fillSeries ys rng) p.1 p.2).isSome := by
  rw [lookupYM_fillSeries, if_pos (by simpa using hp)]
  rfl

theorem fillSeries_id {ys : YearMap} {rng : List (Int × Int)}
    (h : ∀ p ∈ rng, (lookupYM ys p.1 p.2).isSome) : fillSeries ys rng = ys := by
  induction rng with
  | nil => rfl
  | cons q t ih =>
    rw [fillSeries, List.foldl_cons, fillYM_id (h q (List.mem_cons_self _ _)),
        show List.foldl fillYM ys t = fillSeries ys t from rfl,
        ih (fun p hp => h p (List.mem_cons_of_mem _ hp))]

theorem fillSeries_idem (ys : YearMap) (rng : List (Int × Int)) :
    fillSeries (fillSeries ys rng) rng = fillSeries ys rng :=
  fillSeries_id (fun p hp => fillSeries_filled ys rng p hp)

theorem NodupA_nil {α β : Type} : NodupA ([] : List (α × β)) := List.nodup_nil

theorem NodupA_updA {α β : Type} [DecidableEq α]
    {l : List (α × β)} {k : α} {dflt : β} {f : β → β}
    (h : NodupA l) : NodupA (updA l k dflt f) := by
  unfold NodupA
  rw [keysA_updA]
  by_cases hs : (lookupA l k).isSome
  · rw [if_pos hs]
    exact h
  · rw [if_neg hs]
    have hk : k ∉ keysA l :=
      (lookupA_eq_none_iff l k).1 (Option.not_isSome_iff_eq_none.1 hs)
    refine List.Nodup.append h (List.nodup_singleton k) ?_
    intro x hx hx'
    rw [List.mem_singleton] at hx'
    exact hk (hx' ▸ hx)

theorem NodupA_monthGetD {ys : YearMap} {y : Int} (h : NodupYears ys) :
    NodupA ((lookupA ys y).getD [] : MonthMap) := by
  cases hl : lookupA ys y
  · exact NodupA_nil
  · exact h.2 _ (lookupA_mem hl)

theorem NodupYears_upd {ys : YearMap} {y m a : Int} (h : NodupYears ys) :
    NodupYears (updA ys y [] (fun ms => updA ms m 0 (fun v => v + a))) := by
  refine ⟨NodupA_updA h.1, ?_⟩
  intro yp hyp
  rcases mem_updA hyp with hold | hnew
  · exact h.2 yp hold
  · rw [hnew]
    exact NodupA_updA (NodupA_monthGetD h)

theorem NodupYears_yearGetD {ns : NeighMap} {n : String} (h : NodupNeigh ns) :
    NodupYears ((lookupA ns n).getD [] : YearMap) := by
  cases hl : lookupA ns n
  · exact ⟨NodupA_nil, by simp⟩
  · exact h.2 _ (lookupA_mem hl)

theorem NodupNeigh_upd {ns : NeighMap} {n : String} {y m a : Int}
    (h : NodupNeigh ns) :
    NodupNeigh (updA ns n [] (fun ys =>
      updA ys y [] (fun ms => updA ms m 0 (fun v => v + a)))) := by
  refine ⟨NodupA_updA h.1, ?_⟩
  intro np hnp
  rcases mem_updA hnp with hold | hnew
  · exact h.2 np hold
  · rw [hnew]
    exact NodupYears_upd (NodupYears_yearGetD h)

theorem NodupNeigh_neighGetD {d : CrimeData} {c : String} (h : NodupStore d) :
    NodupNeigh ((lookupA d.crime_occurrences c).getD [] : NeighMap) := by
  cases hl : lookupA d.crime_occurrences c
  · exact ⟨NodupA_nil, by simp⟩
  · exact h.2 _ (lookupA_mem hl)

theorem NodupStore_increment {d : CrimeData} (c n : String) (y m a : Int)
    (h : NodupStore d) : NodupStore (d.increment_crime c n y m a) := by
  obtain ⟨h0, h1⟩ := h
  unfold CrimeData.increment_crime NodupStore
  simp only
  refine ⟨NodupA_updA h0, ?_⟩
  intro cp hcp
  rcases mem_updA hcp with hold | hnew
  · exact h1 cp hold
  · rw [hnew]
    exact NodupNeigh_upd (NodupNeigh_neighGetD ⟨h0, h1⟩)

theorem monthNonneg_getD {ys : YearMap} {y : Int} (h : yearNonneg ys) :
    monthNonneg ((lookupA ys y).getD []) := by
  cases hl : lookupA ys y
  · intro mp hmp
    simp at hmp
  · exact h _ (lookupA_mem hl)

theorem yearNonneg_getD {ns : NeighMap} {n : String} (h : neighNonneg ns) :
    yearNonneg ((lookupA ns n).getD []) := by
  cases hl : lookupA ns n
  · intro yp hyp
    simp at hyp
  · exact h _ (lookupA_mem hl)

theorem neighNonneg_getD {d : CrimeData} {c : String} (h : storeNonneg d) :
    neighNonneg ((lookupA d.crime_occurrences c).getD []) := by
  cases hl : lookupA d.crime_occurrences c
  · intro np hnp
    simp at hnp
  · exact h _ (lookupA_mem hl)

theorem monthNonneg_upd {ms : MonthMap} {m a : Int}
    (h : monthNonneg ms) (ha : 0 ≤ a) :
    monthNonneg (updA ms m 0 (fun v => v + a)) := by
  intro mp hmp
  rcases mem_updA hmp with hold | hnew
  · exact h mp hold
  · rw [hnew]
    simp only
    cases hl : lookupA ms m
    · simpa using ha
    · have := h _ (lookupA_mem hl)
      simp only [Option.getD_some]
      omega

theorem yearNonneg_upd {ys : YearMap} {y m a : Int}
    (h : yearNonneg ys) (ha : 0 ≤ a) :
    yearNonneg (updA ys y [] (fun ms => updA ms m 0 (fun v => v + a))) := by
  intro yp hyp
  rcases mem_updA hyp with hold | hnew
  · exact h yp hold
  · rw [hnew]
    exact monthNonneg_upd (monthNonneg_getD h) ha

theorem neighNonneg_upd {ns : NeighMap} {n : String} {y m a : Int}
    (h : neighNonneg ns) (ha : 0 ≤ a) :
    neighNonneg (updA ns n [] (fun ys =>
      updA ys y [] (fun ms => updA ms m 0 (fun v => v + a)))) := by
  intro np hnp
  rcases mem_updA hnp with hold | hnew
  · exact h np hold
  · rw [hnew]
    exact yearNonneg_upd (yearNonneg_getD h) ha

theorem storeNonneg_increment {d : CrimeData} {c n : String} {y m a : Int}
    (h : storeNonneg d) (ha : 0 ≤ a) :
    storeNonneg (d.increment_crime c n y m a) := by
  intro cp hcp
  rcases mem_updA hcp with hold | hnew
  · exact h cp hold
  · rw [hnew]
    exact neighNonneg_upd (neighNonneg_getD h) ha

theorem monthNonneg_insertZero {ms : MonthMap} {m : Int}
    (h : monthNonneg ms) : monthNonneg (insertMonthZero ms m) := by
  unfold insertMonthZero
  by_cases hp : (lookupA ms m).isSome
  · rw [if_pos hp]
    exact h
  · rw [if_neg hp]
    intro mp hmp
    rcases List.mem_append.1 hmp with hold | hnew
    · exact h mp hold
    · rw [List.mem_singleton] at hnew
      rw [hnew]
  
theorem yearNonneg_fillYM {ys : YearMap} {q : Int × Int}
    (h : yearNonneg ys) : yearNonneg (fillYM ys q) := by
  intro yp hyp
  rcases mem_updA hyp with hold | hnew
  · exact h yp hold
  · rw [hnew]
    exact monthNonneg_insertZero (monthNonneg_getD h)

theorem yearNonneg_fillSeries {ys : YearMap} {rng : List (Int × Int)}
    (h : yearNonneg ys) : yearNonneg (fillSeries ys rng) := by
  induction rng generalizing ys with
  | nil => exact h
  | cons q t ih => exact ih (yearNonneg_fillYM h)

theorem storeNonneg_fill_gaps {d : CrimeData} {s e : Int × Int}
    (h : storeNonneg d) : storeNonneg (d.fill_gaps s e) := by
  intro cp hcp
  unfold CrimeData.fill_gaps at hcp
  simp only [List.mem_map] at hcp
  obtain ⟨cp0, hcp0, rfl⟩ := hcp
  intro np hnp
  simp only [List.mem_map] at hnp
  obtain ⟨np0, hnp0, rfl⟩ := hnp
  exact yearNonneg_fillSeries (h cp0 hcp0 np0 hnp0)

theorem fdApp_nil (fd : FormattedDict) : fdApp fd [] = fd := by
  unfold fdApp
  cases fd
  simp

theorem fdApp_assoc (fd : FormattedDict) (rs1 rs2 : List ExportRecord) :
    fdApp (fdApp fd rs1) rs2 = fdApp fd (rs1 ++ rs2) := by
  unfold fdApp
  simp

theorem fdApp_empty (rs : List ExportRecord) :
    fdApp emptyFormattedDict rs = recordsToDict rs := by
  unfold fdApp emptyFormattedDict recordsToDict
  simp

theorem appendRecord_eq_fdApp (fd : FormattedDict) (c n : String)
    (y m k : Int) :
    appendRecord fd c n y m k = fdApp fd [⟨c, n, y, m, k⟩] := by
  unfold appendRecord fdApp
  simp

theorem conformRecord_eq (c n y m k : PyVal) :
    conformRecord c n y m k =
      if isStrV c && isStrV n && isIntV y && isIntV m && isIntV k then
        some ⟨strOf c, strOf n, intOf y, intOf m, intOf k⟩
      else none := by
  cases c <;> cases n <;> cases y <;> cases m <;> cases k <;> rfl

theorem month_fold_eq (c n y : PyVal) (ms : List (PyVal × PyVal))
    (fd : FormattedDict) :
    ms.foldl (fun fd mp =>
      if isStrV c && isStrV n && isIntV y && isIntV mp.1 && isIntV mp.2 then
        appendRecord fd (strOf c) (strOf n) (intOf y) (intOf mp.1) (intOf mp.2)
      else fd) fd =
    fdApp fd (ms.filterMap (fun mp => conformRecord c n y mp.1 mp.2)) := by
  induction ms generalizing fd with
  | nil => rw [List.foldl_nil, List.filterMap_nil, fdApp_nil]
  | cons mp t ih =>
    rw [List.foldl_cons, ih, List.filterMap_cons, conformRecord_eq]
    by_cases hc : (isStrV c && isStrV n && isIntV y && isIntV mp.1 &&
        isIntV mp.2) = true
    · rw [if_pos hc, if_pos hc, appendRecord_eq_fdApp, fdApp_assoc]
      rfl
    · rw [if_neg hc, if_neg hc]

theorem year_fold_eq (c n : PyVal) (ys : List (PyVal × List (PyVal × PyVal)))
    (fd : FormattedDict) :
    ys.foldl (fun fd yp =>
      yp.2.foldl (fun fd mp =>
        if isStrV c && isStrV n && isIntV yp.1 && isIntV mp.1 &&
            isIntV mp.2 then
          appendRecord fd (strOf c) (strOf n) (intOf yp.1) (intOf mp.1)
            (intOf mp.2)
        else fd) fd) fd =
    fdApp fd (ys.flatMap (fun yp =>
      yp.2.filterMap (fun mp => conformRecord c n yp.1 mp.1 mp.2))) := by
  induction ys generalizing fd with
  | nil => rw [List.foldl_nil, List.flatMap_nil, fdApp_nil]
  | cons yp t ih =>
    rw [List.foldl_cons, ih, month_fold_eq, fdApp_assoc, List.flatMap_cons]

theorem neigh_fold_eq (c : PyVal)
    (ns : List (PyVal × List (PyVal × List (PyVal × PyVal))))
    (fd : FormattedDict) :
    ns.foldl (fun fd np =>
      np.2.foldl (fun fd yp =>
        yp.2.foldl (fun fd mp =>
          if isStrV c && isStrV np.1 && isIntV yp.1 && isIntV mp.1 &&
              isIntV mp.2 then
            appendRecord fd (strOf c) (strOf np.1) (intOf yp.1) (intOf mp.1)
              (intOf mp.2)
          else fd) fd) fd) fd =
    fdApp fd (ns.flatMap (fun np =>
      np.2.flatMap (fun yp =>
        yp.2.filterMap (fun mp => conformRecord c np.1 yp.1 mp.1 mp.2)))) := by
  induction ns generalizing fd with
  | nil => rw [List.foldl_nil, List.flatMap_nil, fdApp_nil]
  | cons np t ih =>
    rw [List.foldl_cons, ih, year_fold_eq, fdApp_assoc, List.flatMap_cons]

theorem crime_fold_eq
    (L : List (PyVal × List (PyVal × List (PyVal × List (PyVal × PyVal)))))
    (fd : FormattedDict) :
    L.foldl (fun fd cp =>
      cp.2.foldl (fun fd np =>
        np.2.foldl (fun fd yp =>
          yp.2.foldl (fun fd mp =>
            if isStrV cp.1 && isStrV np.1 && isIntV yp.1 && isIntV mp.1 &&
                isIntV mp.2 then
              appendRecord fd (strOf cp.1) (strOf np.1) (intOf yp.1)
                (intOf mp.1) (intOf mp.2)
            else fd) fd) fd) fd) fd =
    fdApp fd (L.flatMap (fun cp =>
      cp.2.flatMap (fun np =>
        np.2.flatMap (fun yp =>
          yp.2.filterMap (fun mp =>
            conformRecord cp.1 np.1 yp.1 mp.1 mp.2))))) := by
  induction L generalizing fd with
  | nil => rw [List.foldl_nil, List.flatMap_nil, fdApp_nil]
  | cons cp t ih =>
    rw [List.foldl_cons, ih, neigh_fold_eq, fdApp_assoc, List.flatMap_cons]

/-! ## Counting through folds of increments -/

theorem getCount_foldl_increment {ι : Type} (xs : List ι)
    (k1 k2 : ι → String) (k3 k4 amt : ι → Int) (c n : String) (y m : Int)
    (d : CrimeData) :
    (xs.foldl (fun acc x =>
      acc.increment_crime (k1 x) (k2 x) (k3 x) (k4 x) (amt x)) d).getCount
        c n y m =
      if (xs.filter (fun x =>
          decide (k1 x = c ∧ k2 x = n ∧ k3 x = y ∧ k4 x = m))).isEmpty then
        d.getCount c n y m
      else
        some ((d.getCount c n y m).getD 0 +
          ((xs.filter (fun x =>
            decide (k1 x = c ∧ k2 x = n ∧ k3 x = y ∧ k4 x = m))).map amt).sum) := by
  induction xs generalizing d with
  | nil => simp
  | cons x t ih =>
    rw [List.foldl_cons, ih, List.filter_cons]
    by_cases hx : k1 x = c ∧ k2 x = n ∧ k3 x = y ∧ k4 x = m
    · obtain ⟨h1, h2, h3, h4⟩ := hx
      have hdec : decide (k1 x = c ∧ k2 x = n ∧ k3 x = y ∧ k4 x = m) = true := by
        simp [h1, h2, h3, h4]
      rw [if_pos hdec, getCount_increment,
          if_pos (show c = k1 x ∧ n = k2 x ∧ y = k3 x ∧ m = k4 x from
            ⟨h1.symm, h2.symm, h3.symm, h4.symm⟩), h1, h2, h3, h4]
      by_cases ht : (t.filter (fun x =>
          decide (k1 x = c ∧ k2 x = n ∧ k3 x = y ∧ k4 x = m))).isEmpty
      · rw [if_pos ht]
        rw [List.isEmpty_iff] at ht
        rw [ht]
        simp
      · rw [if_neg ht, if_neg (by simp :
          ¬ ((x :: t.filter (fun x =>
            decide (k1 x = c ∧ k2 x = n ∧ k3 x = y ∧ k4 x = m))).isEmpty = true))]
        simp only [Option.getD_some, List.map_cons, List.sum_cons]
        congr 1
        omega
    · have hdec : decide (k1 x = c ∧ k2 x = n ∧ k3 x = y ∧ k4 x = m) = false := by
        simpa using hx
      have hinner : (if c = k1 x ∧ n = k2 x ∧ y = k3 x ∧ m = k4 x
          then some ((d.getCount (k1 x) (k2 x) (k3 x) (k4 x)).getD 0 + amt x)
          else d.getCount c n y m) = d.getCount c n y m := by
        rw [if_neg (fun hcon => hx ⟨hcon.1.symm, hcon.2.1.symm,
          hcon.2.2.1.symm, hcon.2.2.2.symm⟩)]
      rw [hdec, if_neg Bool.false_ne_true, getCount_increment, hinner]

theorem ite_decide_range {α : Type} (s e x : Int × Int) (A B : α) :
    (if (decide (monthIdx s ≤ monthIdx x) &&
        decide (monthIdx x ≤ monthIdx e)) = true then A else B) =
      if ymInRange s e x then A else B := by
  by_cases h : ymInRange s e x
  · obtain ⟨h1, h2⟩ := h
    rw [if_pos (show ymInRange s e x from ⟨h1, h2⟩),
        if_pos (show (decide (monthIdx s ≤ monthIdx x) &&
          decide (monthIdx x ≤ monthIdx e)) = true by simp [h1, h2])]
  · rw [if_neg h]
    unfold ymInRange at h
    rw [if_neg (by simpa using h)]

theorem raw_foldlM_ok (rows : List Row) (cc cy cm cn : Nat)
    (s e : Int × Int) (d : CrimeData)
    (hs : validYM s) (he : validYM e)
    (hrows : ∀ r ∈ rows, validYM ((getCol r cy).asInt, (getCol r cm).asInt)) :
    List.foldlM (fun d row => do
      let inR ← check_date_in_range s e
        ((getCol row cy).asInt, (getCol row cm).asInt)
      pure (if inR then
        d.increment_crime (getCol row cc).asStr (getCol row cn).asStr
          (getCol row cy).asInt (getCol row cm).asInt 1
      else d)) d rows =
    Except.ok (rows.foldl (fun d row =>
      if ymInRange s e ((getCol row cy).asInt, (getCol row cm).asInt) then
        d.increment_crime (getCol row cc).asStr (getCol row cn).asStr
          (getCol row cy).asInt (getCol row cm).asInt 1
      else d) d) := by
  induction rows generalizing d with
  | nil => rfl
  | cons r t ih =>
    rw [List.foldlM_cons, check_date_in_range_ok hs he
      (hrows r (List.mem_cons_self _ _))]
    simp only [bind, Except.bind, pure, Except.pure]
    rw [ite_decide_range, List.foldl_cons]
    exact ih _ (fun r' hr' => hrows r' (List.mem_cons_of_mem _ hr'))

theorem mkDate1_ok_month {y m : Int} {d : PyDate}
    (h : mkDate1 y m = Except.ok d) : validMonth m := by
  unfold mkDate1 at h
  by_cases h1 : y < 1 ∨ 9999 < y
  · rw [if_pos h1] at h
    exact absurd h (by simp)
  · rw [if_neg h1] at h
    by_cases h2 : m < 1 ∨ 12 < m
    · rw [if_pos h2] at h
      exact absurd h (by simp)
    · unfold validMonth
      omega

/-! ## Claim theorems -/

/-- C2: for all valid bounds and candidate, `check_date_in_range` returns
true iff the candidate's first-of-month calendar position lies between the two
bounds' positions, inclusive on both ends and correctly ordered across year
boundaries; in particular on the five cited concrete inputs. -/
theorem check_date_in_range_correct :
    (∀ s e c : Int × Int, validYM s → validYM e → validYM c →
      (check_date_in_range s e c = Except.ok true ↔
        (monthIdx s ≤ monthIdx c ∧ monthIdx c ≤ monthIdx e))) ∧
    check_date_in_range (2003, 1) (2021, 11) (2003, 1) = Except.ok true ∧
    check_date_in_range (2003, 1) (2021, 11) (2021, 11) = Except.ok true ∧
    check_date_in_range (2003, 1) (2021, 11) (2002, 12) = Except.ok false ∧
    check_date_in_range (2003, 1) (2021, 11) (2003, 12) = Except.ok true ∧
    check_date_in_range (2003, 11) (2004, 2) (2003, 12) = Except.ok true := by
  refine ⟨?_, rfl, rfl, rfl, rfl, rfl⟩
  intro s e c hs he hc
  rw [check_date_in_range_ok hs he hc]
  simp

/-- Witness for C2: the predicate applied inside the range. -/
theorem check_date_in_range_correct_witness :
    check_date_in_range (2003, 1) (2021, 11) (2010, 5) = Except.ok true :=
  (check_date_in_range_correct.1 (2003, 1) (2021, 11) (2010, 5)
    (by decide) (by decide) (by decide)).2 (by decide)

/-- C9: a call to `check_date_in_range` in which any of the three arguments
has a month outside 1..12 fails with an error raised by the date-construction
primitive rather than returning a boolean. -/
theorem check_date_in_range_invalid_month (s e c : Int × Int)
    (h : ¬ validMonth s.2 ∨ ¬ validMonth e.2 ∨ ¬ validMonth c.2) :
    ∃ msg, check_date_in_range s e c = Except.error msg := by
  unfold check_date_in_range
  cases hs : mkDate1 s.1 s.2 with
  | error msg => exact ⟨msg, rfl⟩
  | ok ds =>
    have hsv : validMonth s.2 := mkDate1_ok_month hs
    cases he : mkDate1 e.1 e.2 with
    | error msg => exact ⟨msg, rfl⟩
    | ok de =>
      have hev : validMonth e.2 := mkDate1_ok_month he
      have hcv : ¬ validMonth c.2 := by tauto
      obtain ⟨msg, hc⟩ := @mkDate1_error_of_badMonth c.1 c.2 hcv
      exact ⟨msg, by rw [hc]; rfl⟩

/-- Witness for C9: month 13 in the lower bound raises. -/
theorem check_date_in_range_invalid_month_witness :
    ∃ msg, check_date_in_range (2003, 13) (2004, 1) (2003, 12) =
      Except.error msg :=
  check_date_in_range_invalid_month (2003, 13) (2004, 1) (2003, 12)
    (Or.inl (by decide))

/-- C1: after `fill_gaps`, every pair already present has an explicit entry at
every month of the inclusive range (zero where previously absent, the range
iterated with correct December-to-January rollover), every pre-existing entry
keeps its count, and absent pairs stay absent. -/
theorem fill_gaps_postcondition (d : CrimeData) (s e : Int × Int)
    (hs : validMonth s.2) :
    (∀ c n, (d.getPair c n).isSome →
      ∀ y m, validMonth m → monthIdx s ≤ monthIdx (y, m) →
        monthIdx (y, m) ≤ monthIdx e →
        (d.fill_gaps s e).getCount c n y m =
          some ((d.getCount c n y m).getD 0)) ∧
    (∀ c n y m v, d.getCount c n y m = some v →
      (d.fill_gaps s e).getCount c n y m = some v) ∧
    (∀ c n, d.getPair c n = none → (d.fill_gaps s e).getPair c n = none) := by
  refine ⟨?_, ?_, ?_⟩
  · intro c n hcn y m hm h1 h2
    obtain ⟨ys, hys⟩ := Option.isSome_iff_exists.1 hcn
    rw [getCount_fill_gaps, hys]
    simp only
    rw [if_pos ((mem_monthRange s e hs (y, m)).2 ⟨hm, h1, h2⟩)]
    unfold CrimeData.getCount
    rw [hys]
    simp only [Option.some_bind]
  · intro c n y m v hv
    have hPair : ∃ ys, d.getPair c n = some ys ∧ lookupYM ys y m = some v := by
      unfold CrimeData.getCount at hv
      cases hp : d.getPair c n
      · rw [hp] at hv
        simp at hv
      · rw [hp] at hv
        simp only [Option.some_bind] at hv
        exact ⟨_, rfl, hv⟩
    obtain ⟨ys, hys, hl⟩ := hPair
    rw [getCount_fill_gaps, hys]
    simp only
    by_cases hmem : (y, m) ∈ monthRange s e
    · rw [if_pos hmem, hl]
      rfl
    · rw [if_neg hmem, hl]
  · intro c n hcn
    rw [getPair_fill_gaps, hcn]
    rfl

/-- Witness for C1: filling the example store over 2003-01..2003-03 inserts an
explicit zero for February. -/
theorem fill_gaps_postcondition_witness :
    (exStore.fill_gaps (2003, 1) (2003, 3)).getCount "Theft" "X" 2003 2 =
      some 0 := by
  have h := (fill_gaps_postcondition exStore (2003, 1) (2003, 3) (by decide)).1
    "Theft" "X" (by decide) 2003 2 (by decide) (by decide) (by decide)
  exact h.trans (by decide)

/-- C7: `fill_gaps` is idempotent — a second pass with the same range changes
nothing. -/
theorem fill_gaps_idempotent (d : CrimeData) (s e : Int × Int) :
    (d.fill_gaps s e).fill_gaps s e = d.fill_gaps s e := by
  obtain ⟨L⟩ := d
  unfold CrimeData.fill_gaps
  simp only
  congr 1
  rw [List.map_map]
  apply List.map_congr_left
  intro cp _
  simp only [Function.comp]
  congr 1
  rw [List.map_map]
  apply List.map_congr_left
  intro np _
  simp only [Function.comp]
  congr 1
  exact fillSeries_idem np.2 (monthRange s e)

theorem getCount_foldl_const (amts : List Int) (d : CrimeData) (c n : String)
    (y m : Int) :
    (amts.foldl (fun acc a => acc.increment_crime c n y m a) d).getCount
        c n y m =
      if amts.isEmpty then d.getCount c n y m
      else some ((d.getCount c n y m).getD 0 + amts.sum) := by
  have hgen : (amts.foldl (fun acc a => acc.increment_crime c n y m a)
      d).getCount c n y m =
      if (amts.filter (fun a =>
          decide (c = c ∧ n = n ∧ y = y ∧ m = m))).isEmpty then
        d.getCount c n y m
      else some ((d.getCount c n y m).getD 0 +
        ((amts.filter (fun a =>
          decide (c = c ∧ n = n ∧ y = y ∧ m = m))).map (fun a => a)).sum) :=
    getCount_foldl_increment amts (fun _ => c) (fun _ => n) (fun _ => y)
      (fun _ => m) (fun a => a) c n y m d
  have hfil : amts.filter (fun a => decide (c = c ∧ n = n ∧ y = y ∧ m = m)) =
      amts :=
    List.filter_eq_self.2 (fun a _ => by simp)
  rw [hfil, List.map_id'] at hgen
  exact hgen

theorem NodupStore_foldl (amts : List Int) (d : CrimeData) (c n : String)
    (y m : Int) (hnd : NodupStore d) :
    NodupStore (amts.foldl (fun acc a => acc.increment_crime c n y m a) d) := by
  induction amts generalizing d with
  | nil => exact hnd
  | cons a t ih => exact ih _ (NodupStore_increment c n y m a hnd)

/-- C6: a finite sequence of increments at one key path accumulates into a
single entry whose count is the sum of the amounts, independently of the
order of the calls, and key uniqueness is preserved at every level. -/
theorem increment_accumulation (d : CrimeData) (c n : String) (y m : Int)
    (amts : List Int) (h : amts ≠ []) (hnd : NodupStore d) :
    ((amts.foldl (fun acc a => acc.increment_crime c n y m a) d).getCount
        c n y m = some ((d.getCount c n y m).getD 0 + amts.sum)) ∧
    (∀ amts2 : List Int, amts.Perm amts2 →
      (amts2.foldl (fun acc a => acc.increment_crime c n y m a) d).getCount
        c n y m =
      (amts.foldl (fun acc a => acc.increment_crime c n y m a) d).getCount
        c n y m) ∧
    NodupStore (amts.foldl (fun acc a => acc.increment_crime c n y m a) d) := by
  have hne : amts.isEmpty = false := by
    cases amts with
    | nil => exact absurd rfl h
    | cons a t => rfl
  refine ⟨?_, ?_, NodupStore_foldl amts d c n y m hnd⟩
  · rw [getCount_foldl_const, hne, if_neg Bool.false_ne_true]
  · intro amts2 hp
    have h2 : amts2.isEmpty = false := by
      cases ha2 : amts2 with
      | nil => exact absurd (List.Perm.eq_nil (ha2 ▸ hp)) h
      | cons a t => rfl
    rw [getCount_foldl_const, getCount_foldl_const, hne, h2,
        if_neg Bool.false_ne_true, if_neg Bool.false_ne_true,
        List.Perm.sum_eq hp]

/-- Witness for C6: two increments of 2 and 3 at one key path end at 5. -/
theorem increment_accumulation_witness :
    (([2, 3] : List Int).foldl
      (fun acc a => acc.increment_crime "Theft" "X" 2003 1 a)
      emptyCrimeData).getCount "Theft" "X" 2003 1 = some 5 := by
  have h := (increment_accumulation emptyCrimeData "Theft" "X" 2003 1 [2, 3]
    (by decide) (by decide)).1
  exact h.trans (by decide)

/-- C8 counterexample: with increments by an arbitrary integer allowed (as in
processed mode), a reachable store can hold a negative count, so the claim as
stated is false. -/
theorem nonneg_counterexample :
    ¬ (∀ d : CrimeData, ReachCD d → storeNonneg d) := by
  intro h
  exact absurd
    (h _ (ReachCD.inc emptyCrimeData "a" "b" 2003 1 (-1) ReachCD.empty))
    (by decide)

/-- C8 (amended): when every increment amount is non-negative, every
occurrence count stored at any leaf is non-negative after every sequence of
lifecycle operations. -/
theorem nonneg_invariant (d : CrimeData) (h : ReachCDNN d) : storeNonneg d := by
  induction h with
  | empty =>
    intro cp hcp
    simp [emptyCrimeData] at hcp
  | inc d c n y m a ha hr ih => exact storeNonneg_increment ih ha
  | fill d s e hr ih => exact storeNonneg_fill_gaps ih

/-- Witness for C8's amended claim: a store built by a non-negative increment
is non-negative. -/
theorem nonneg_invariant_witness :
    storeNonneg (emptyCrimeData.increment_crime "a" "b" 2003 1 2) :=
  nonneg_invariant _
    (ReachCDNN.inc emptyCrimeData "a" "b" 2003 1 2 (by decide) ReachCDNN.empty)

/-- C3: in raw mode the pipeline increments the store by exactly 1 at the key
of each row whose (year, month) lies in the caller-supplied inclusive range,
rows outside the range contribute nothing, and `fill_gaps` runs exactly once
with that same range after all rows. -/
theorem build_raw_mode (rows : List Row)
    (cc cy cm cn co : Nat) (s e : Int × Int)
    (hs : validYM s) (he : validYM e)
    (hrows : ∀ r ∈ rows, validYM ((getCol r cy).asInt, (getCol r cm).asInt)) :
    build_crime_data_class rows cc cy cm cn false co s e =
      Except.ok ((rows.foldl (fun d row =>
        if ymInRange s e ((getCol row cy).asInt, (getCol row cm).asInt) then
          d.increment_crime (getCol row cc).asStr (getCol row cn).asStr
            (getCol row cy).asInt (getCol row cm).asInt 1
        else d) emptyCrimeData).fill_gaps s e) := by
  unfold build_crime_data_class
  rw [if_pos Bool.false_ne_true,
      raw_foldlM_ok rows cc cy cm cn s e emptyCrimeData hs he hrows]
  rfl

/-- Witness for C3: the spec's end-to-end example — two thefts in 2003-01 and
one in 2003-03 over the range 2003-01..2003-03 yield counts 2, 0, 1. -/
theorem build_raw_mode_witness :
    (build_crime_data_class exRows 0 1 2 3 false 9 (2003, 1) (2003, 3)).map
        (fun d => (d.getCount "Theft" "X" 2003 1,
          d.getCount "Theft" "X" 2003 2, d.getCount "Theft" "X" 2003 3)) =
      Except.ok (some 2, some 0, some 1) := by
  rw [build_raw_mode exRows 0 1 2 3 9 (2003, 1) (2003, 3) (by decide)
    (by decide) (by decide)]
  rfl

/-- C4: in processed mode every row is ingested with no date filtering, each
row adds the value of its occurrence-count column, and no gap-fill runs: a
key holds exactly the sum of the matching rows' counts and keys with no
matching row stay absent. -/
theorem build_processed_mode (rows : List Row)
    (cc cy cm cn co : Nat) (s e : Int × Int) (c n : String) (y m : Int) :
    ∃ d : CrimeData,
      build_crime_data_class rows cc cy cm cn true co s e = Except.ok d ∧
      d.getCount c n y m =
        (if (rows.filter (fun row =>
            decide ((getCol row cc).asStr = c ∧ (getCol row cn).asStr = n ∧
              (getCol row cy).asInt = y ∧ (getCol row cm).asInt = m))).isEmpty
         then none
         else some (((rows.filter (fun row =>
            decide ((getCol row cc).asStr = c ∧ (getCol row cn).asStr = n ∧
              (getCol row cy).asInt = y ∧ (getCol row cm).asInt = m))).map
              (fun row => (getCol row co).asInt)).sum)) := by
  refine ⟨_, rfl, ?_⟩
  have hgen : (rows.foldl (fun acc row =>
      acc.increment_crime (getCol row cc).asStr (getCol row cn).asStr
        (getCol row cy).asInt (getCol row cm).asInt
        (getCol row co).asInt) emptyCrimeData).getCount c n y m =
      if (rows.filter (fun row =>
          decide ((getCol row cc).asStr = c ∧ (getCol row cn).asStr = n ∧
            (getCol row cy).asInt = y ∧ (getCol row cm).asInt = m))).isEmpty
      then emptyCrimeData.getCount c n y m
      else some ((emptyCrimeData.getCount c n y m).getD 0 +
        ((rows.filter (fun row =>
          decide ((getCol row cc).asStr = c ∧ (getCol row cn).asStr = n ∧
            (getCol row cy).asInt = y ∧ (getCol row cm).asInt = m))).map
            (fun row => (getCol row co).asInt)).sum) :=
    getCount_foldl_increment rows (fun row => (getCol row cc).asStr)
      (fun row => (getCol row cn).asStr) (fun row => (getCol row cy).asInt)
      (fun row => (getCol row cm).asInt) (fun row => (getCol row co).asInt)
      c n y m emptyCrimeData
  rw [hgen]
  have h0 : emptyCrimeData.getCount c n y m = none := rfl
  rw [h0]
  simp

theorem getCol_set_ne (r : Row) (i j : Nat) (v : Cell) (hij : i ≠ j) :
    getCol (r.set i v) j = getCol r j := by
  unfold getCol
  rw [List.getD_eq_getElem?_getD, List.getD_eq_getElem?_getD,
      List.getElem?_set_ne hij]

/-- C10: in raw mode the occurrence-count column is never read — overwriting
it cell by cell leaves the result unchanged — each in-range row contributes
exactly 1, and the two modes can therefore differ on the same rows when a
count column holds a value other than 1 (here 2). -/
theorem raw_mode_ignores_occurrences :
    (∀ (rows : List Row) (cc cy cm cn co : Nat) (v : Cell) (s e : Int × Int),
      co ≠ cc → co ≠ cy → co ≠ cm → co ≠ cn →
      build_crime_data_class (rows.map (fun r => r.set co v)) cc cy cm cn
        false co s e =
      build_crime_data_class rows cc cy cm cn false co s e) ∧
    ((build_crime_data_class exRow2 0 1 2 3 false 4 (2003, 1) (2003, 1)).map
      (fun d => d.getCount "Theft" "X" 2003 1) = Except.ok (some 1)) ∧
    ((build_crime_data_class exRow2 0 1 2 3 true 4 (2003, 1) (2003, 1)).map
      (fun d => d.getCount "Theft" "X" 2003 1) = Except.ok (some 2)) := by
  refine ⟨?_, rfl, rfl⟩
  intro rows cc cy cm cn co v s e h1 h2 h3 h4
  unfold build_crime_data_class
  rw [if_pos Bool.false_ne_true, if_pos Bool.false_ne_true]
  have hfold : List.foldlM (fun d row => do
      let inR ← check_date_in_range s e
        ((getCol row cy).asInt, (getCol row cm).asInt)
      pure (if inR then
        d.increment_crime (getCol row cc).asStr (getCol row cn).asStr
          (getCol row cy).asInt (getCol row cm).asInt 1
      else d)) emptyCrimeData (rows.map (fun r => r.set co v)) =
      List.foldlM (fun d row => do
      let inR ← check_date_in_range s e
        ((getCol row cy).asInt, (getCol row cm).asInt)
      pure (if inR then
        d.increment_crime (getCol row cc).asStr (getCol row cn).asStr
          (getCol row cy).asInt (getCol row cm).asInt 1
      else d)) emptyCrimeData rows := by
    rw [List.foldlM_map]
    congr 1
    funext d r
    rw [getCol_set_ne r co cy v h2, getCol_set_ne r co cm v h3,
        getCol_set_ne r co cc v h1, getCol_set_ne r co cn v h4]
  rw [hfold]

/-- Witness for C10: overwriting the count column of the example processed-
schema row changes nothing in raw mode. -/
theorem raw_mode_ignores_occurrences_witness :
    build_crime_data_class (exRow2.map (fun r => r.set 4 (Cell.int 99)))
        0 1 2 3 false 4 (2003, 1) (2003, 1) =
      build_crime_data_class exRow2 0 1 2 3 false 4 (2003, 1) (2003, 1) :=
  raw_mode_ignores_occurrences.1 exRow2 0 1 2 3 4 (Cell.int 99) (2003, 1)
    (2003, 1) (by decide) (by decide) (by decide) (by decide)

/-- C5: the export emits exactly one flat record per leaf whose keys and value
conform to the {string, string, integer, integer, integer} shape, silently
omits every non-conforming leaf without raising, and keeps all conforming
leaves even in the presence of non-conforming ones. -/
theorem create_csv_export_filtering (d : DynCrimeData) :
    create_csv d = recordsToDict (spec_export_records d) := by
  unfold create_csv spec_export_records
  rw [crime_fold_eq, fdApp_empty]
